import Mathlib

/-!
Verification of the meeting-date recurrence engine of the calgen repository
(`calgen.py`, `ical_writer.py`).

Embedding conventions:
* Calendar dates in the resolver/compactor are day numbers (`Nat`), one unit
  per calendar day, with day 0 falling on a Monday, so the weekday index of
  day `d` (Monday = 0, as in Python's `date.weekday()`) is `d % 7`.
* Fallible Python code (raising exceptions) is embedded with `Option` /
  `Except`.
* Python strings are Lean `String`s; character-level scanning is done on
  `String.data`.
-/

namespace Calgen

/-- Embeds `letter_to_day` from calgen.py: `'MTWRFSU'.index(d)`; `none` models the
`ValueError` raised when the letter is not one of the seven. -/
def strIndex (l : List Char) (c : Char) : Option Nat :=
  match l with
  | [] => none
  | x :: xs => if x = c then some 0 else (strIndex xs c).map (· + 1)

def letter_to_day (c : Char) : Option Nat :=
  strIndex ['M', 'T', 'W', 'R', 'F', 'S', 'U'] c

/-- A list-valued `mapM` over `Option`, modelling a Python list comprehension
that raises on the first failing element. -/
def mapOpt (f : α → Option β) : List α → Option (List β)
  | [] => some []
  | a :: l =>
    match f a, mapOpt f l with
    | some b, some bs => some (b :: bs)
    | _, _ => none

/-- The `pattern` field of a `SpecialDate` in calgen.py after `__init__`
validation: a weekday index (from a single letter), the `'END_OF_SEMESTER'`
sentinel string, or the empty string meaning "no class". -/
inductive Effect where
  | weekday (n : Nat)
  | noMeeting
  | semesterEnd
deriving DecidableEq

/-- Embeds `SpecialDate` from calgen.py (date, name, validated pattern). -/
structure SpecialDate where
  date : Nat
  name : String
  pattern : Effect
deriving DecidableEq

/-- One tuple yielded by `iter_meeting_dates`:
`(cur, meets_today, is_exception, is_abnormal_meeting)`. -/
structure Classification where
  date : Nat
  meets_today : Bool
  is_exception : Bool
  is_abnormal_meeting : Bool
deriving DecidableEq

/-- The inner scan of `iter_meeting_dates` (calgen.py lines 99-102):
`effective_date` starts as `cur.weekday()` and is overwritten by the pattern
of every special date equal to `cur`, so the last matching entry wins. -/
def effectiveDate (special_dates : List SpecialDate) (cur : Nat) : Effect :=
  special_dates.foldl
    (fun eff special => if special.date = cur then special.pattern else eff)
    (Effect.weekday (cur % 7))

/-- Python's `effective_date in days` where `days` is a list of weekday
indices: a string sentinel (`noMeeting`/`semesterEnd`) is never equal to an
integer, so only the `weekday` case can be a member. -/
def effMatches (eff : Effect) (days : List Nat) : Bool :=
  match eff with
  | Effect.weekday n => days.contains n
  | _ => false

/-- The `while cur <= end_date` loop of `iter_meeting_dates`, recursing on the
number `n` of days left to visit, carrying the `semester_ended` flag. -/
def iterFrom (special_dates : List SpecialDate) (days : List Nat) :
    Nat → Nat → Bool → List Classification
  | _, 0, _ => []
  | cur, Nat.succ n, semester_ended =>
    let true_date := cur % 7
    let effective_date := effectiveDate special_dates cur
    let normally_meets_today := days.contains true_date
    let meets_today := effMatches effective_date days && !semester_ended
    let is_exception := normally_meets_today && !meets_today
    let is_abnormal_meeting := !normally_meets_today && meets_today
    ⟨cur, meets_today, is_exception, is_abnormal_meeting⟩ ::
      iterFrom special_dates days (cur + 1) n
        (semester_ended || decide (effective_date = Effect.semesterEnd))

/-- Embeds `iter_meeting_dates` from calgen.py: one classification per day from
`start_date` to `end_date` inclusive; `none` models the `ValueError` from an
invalid pattern letter. -/
def iter_meeting_dates (start_date end_date : Nat) (pattern : List Char)
    (special_dates : List SpecialDate) : Option (List Classification) :=
  (mapOpt letter_to_day pattern).map fun days =>
    iterFrom special_dates days start_date (end_date + 1 - start_date) false

/-- Modelled from the spec's words (not from the source), for comparison with
`effectiveDate`: "scan exceptions for one matching `d` ... first match wins
deterministically by table order". -/
def firstMatchEffective_spec (special_dates : List SpecialDate) (cur : Nat) : Effect :=
  match special_dates.find? (fun s => s.date == cur) with
  | some s => s.pattern
  | none => Effect.weekday (cur % 7)

/-- Last-match semantics: the effect of the last entry in table order whose
date matches, if any. -/
def lastMatchEffective (special_dates : List SpecialDate) (cur : Nat) : Effect :=
  firstMatchEffective_spec special_dates.reverse cur

/-- Fuel-driven helper: keys of a Python `Counter`/`dict` appear in first
occurrence order, so deduplication keeps the first copy of each date. -/
def dedupKeepFirstF : Nat → List Nat → List Nat
  | 0, _ => []
  | _, [] => []
  | fuel + 1, d :: ds => d :: dedupKeepFirstF fuel (ds.filter (· != d))

def dedupKeepFirst (l : List Nat) : List Nat := dedupKeepFirstF l.length l

/-- Embeds `duplicated_dates` from calgen.py lines 66-68: the dates that occur more
than once in the special-date table (the `st.warning` condition). -/
def duplicated_dates (special_dates : List SpecialDate) : List Nat :=
  dedupKeepFirst ((special_dates.map SpecialDate.date).filter
    (fun d => decide (1 < (special_dates.map SpecialDate.date).count d)))

/-- A concrete exception table with two entries on the same date 10 but with
different weekday effects. -/
def dupExcs : List SpecialDate :=
  [⟨10, "A", Effect.weekday 0⟩, ⟨10, "B", Effect.weekday 1⟩]

/-- Whether some day strictly before `cur + i` (among `cur, ..., cur + i - 1`)
has effective value `semesterEnd`; this is the value of the `semester_ended`
flag when the loop reaches day `cur + i` having started at `cur` with the flag
clear. -/
def endedBefore (special_dates : List SpecialDate) : Nat → Nat → Bool
  | _, 0 => false
  | cur, Nat.succ i =>
    decide (effectiveDate special_dates cur = Effect.semesterEnd) ||
      endedBefore special_dates (cur + 1) i

/-- Closed form of the classification that `iterFrom special_dates days cur n
flag` emits at index `i`. -/
def classifyAt (special_dates : List SpecialDate) (days : List Nat)
    (flag : Bool) (cur i : Nat) : Classification :=
  let d := cur + i
  let eff := effectiveDate special_dates d
  let normally := days.contains (d % 7)
  let meets := effMatches eff days && !(flag || endedBefore special_dates cur i)
  ⟨d, meets, normally && !meets, !normally && meets⟩

/-- The `{hour, minute}` dict returned by `parse_time`. -/
structure TimeHM where
  hour : Nat
  minute : Nat
deriving DecidableEq

inductive Meridian where
  | AM
  | PM
deriving DecidableEq

/-- Python `int` applied to a non-empty string of decimal digits. -/
def natFromDigits (ds : List Char) : Nat :=
  ds.foldl (fun acc c => 10 * acc + (c.toNat - 48)) 0

/-- One `\d+` group of the regex: the maximal non-empty digit run at the head
of the input, with the unconsumed remainder. -/
def parseDigits (cs : List Char) : Option (Nat × List Char) :=
  let ds := cs.takeWhile Char.isDigit
  if ds.isEmpty then none
  else some (natFromDigits ds, cs.dropWhile Char.isDigit)

/-- The anchored, unanchored-at-the-end regex match
`^(\d+):(\d+) (AM|PM)` of `parse_time`: trailing characters are ignored. -/
def matchTime (cs : List Char) : Option (Nat × Nat × Meridian) :=
  match parseDigits cs with
  | some (hour, ':' :: rest1) =>
    match parseDigits rest1 with
    | some (minute, ' ' :: 'A' :: 'M' :: _) => some (hour, minute, Meridian.AM)
    | some (minute, ' ' :: 'P' :: 'M' :: _) => some (hour, minute, Meridian.PM)
    | _ => none
  | _ => none

/-- Embeds `parse_time` from calgen.py lines 134-153; `none` models the uncaught
`AttributeError` raised when the regex does not match. -/
def parse_time (x : String) : Option TimeHM :=
  (matchTime x.data).map fun r =>
    let hour := r.1
    let minute := r.2.1
    let meridian := r.2.2
    let hour := if hour = 12 then 0 else hour
    let hour := if meridian = Meridian.PM then hour + 12 else hour
    ⟨hour, minute⟩

/-- Fuel-driven decimal rendering of a natural number (most significant digit
first), mirroring Python's `str`/`strftime` digit output. -/
def natToCharsF : Nat → Nat → List Char
  | 0, _ => []
  | fuel + 1, n =>
    if n < 10 then [Nat.digitChar n]
    else natToCharsF fuel (n / 10) ++ [Nat.digitChar (n % 10)]

def natToChars (n : Nat) : List Char := natToCharsF (n + 1) n

/-- Zero-padded decimal rendering, as in `%02d` / `%Y%m%d` format fields. -/
def padChars (k n : Nat) : List Char :=
  List.replicate (k - (natToChars n).length) '0' ++ natToChars n

/-- Embeds `actual_occurrences` from calgen.py line 301: the classifications whose
`meets_today` flag is set. -/
def actual_occurrences (occurrences : List Classification) : List Classification :=
  occurrences.filter (fun c => c.meets_today)

/-- Models `actual_occurrences[-1][0]` (calgen.py line 303) when it exists; `none`
models the uncaught `IndexError` on an empty list. -/
def last_meeting_date? (occurrences : List Classification) : Option Nat :=
  ((actual_occurrences occurrences).getLast?).map (fun c => c.date)

/-- Embeds `exceptions_dates` from calgen.py lines 314-318: dates marked
`is_exception` that do not fall after the last actual meeting. -/
def exceptions_dates (occurrences : List Classification)
    (last_meeting_date : Nat) : List Nat :=
  (occurrences.filter
      (fun c => c.is_exception && decide (c.date ≤ last_meeting_date))).map
    (fun c => c.date)

/-- Embeds `AcademicEvent` from calgen.py; `meeting_time = none` models a cell whose
value is not a string (the `isinstance(meeting_time, str)` check). -/
structure AcademicEvent where
  pattern : List Char
  name : String
  location : String
  meeting_time : Option String
  start_date : Nat
  end_date : Nat

/-- The distinct uncaught Python exceptions the per-section loop body of
calgen.py can raise: `ValueError` from unpacking `split(' - ')`,
`AttributeError` from `parse_time` on a non-matching string, `ValueError`
from an invalid pattern letter, `IndexError` from `actual_occurrences[0]`. -/
inductive SectionError where
  | timeSplit
  | timeParse
  | badPattern
  | noMeetings
deriving DecidableEq

/-- The argument tuple each `recurring_event(...)` call receives — the
descriptor content of one output event before serialization. -/
structure RecurringSpec where
  first_date : Nat
  last_date : Option Nat
  summary : String
  location : String
  start_time_p : TimeHM
  end_time_p : TimeHM
  meeting_pattern : Option (List Char)
  exceptions : List Nat
deriving DecidableEq

/-- Python `meeting_time.split(' - ')`: split on every non-overlapping
occurrence of the three-character separator, left to right. -/
def splitDash : List Char → List (List Char)
  | [] => [[]]
  | ' ' :: '-' :: ' ' :: rest => [] :: splitDash rest
  | c :: rest =>
    match splitDash rest with
    | [] => [[c]]
    | l :: ls => (c :: l) :: ls

/-- The body of the per-section loop of calgen.py lines 286-346, for a section
whose meeting-time field is the string `mt`: any failure is an uncaught
exception. -/
def sectionEvents (specials : List SpecialDate) (ev : AcademicEvent)
    (mt : String) : Except SectionError (List RecurringSpec) :=
  match splitDash mt.data with
  | [st, et] =>
    match parse_time (String.mk st) with
    | none => Except.error SectionError.timeParse
    | some start_time_p =>
      match parse_time (String.mk et) with
      | none => Except.error SectionError.timeParse
      | some end_time_p =>
        match iter_meeting_dates ev.start_date ev.end_date ev.pattern specials with
        | none => Except.error SectionError.badPattern
        | some occurrences =>
          match actual_occurrences occurrences with
          | [] => Except.error SectionError.noMeetings
          | first :: rest =>
            let last := (first :: rest).getLast (List.cons_ne_nil first rest)
            Except.ok
              (⟨first.date, some last.date, ev.name, ev.location, start_time_p,
                  end_time_p, some ev.pattern,
                  exceptions_dates occurrences last.date⟩ ::
                (occurrences.filter (fun c => c.is_abnormal_meeting)).map
                  (fun c => ⟨c.date, none, ev.name, ev.location, start_time_p,
                    end_time_p, none, []⟩))
  | _ => Except.error SectionError.timeSplit

/-- The `for i, academic_event in enumerate(academic_events)` loop of
calgen.py lines 278-346: a missing (non-string) meeting time is skipped with a
warning, any exception raised in the body propagates and ends the whole run. -/
def runSections (specials : List SpecialDate) :
    List AcademicEvent → Except SectionError (List RecurringSpec)
  | [] => Except.ok []
  | ev :: rest =>
    match ev.meeting_time with
    | none => runSections specials rest
    | some mt =>
      match sectionEvents specials ev mt with
      | Except.error e => Except.error e
      | Except.ok evs =>
        match runSections specials rest with
        | Except.error e => Except.error e
        | Except.ok more => Except.ok (evs ++ more)

/-- A section that meets on its Monday start date. -/
def goodEv : AcademicEvent :=
  ⟨['M'], "CS 108", "NH 253", some ("9:00 AM - 9:50 AM"), 0, 4⟩

/-- A section whose one-day range (a Tuesday) never matches its `M` pattern:
no meeting dates at all. -/
def noMeetEv : AcademicEvent :=
  ⟨['M'], "CS 195", "CH 101", some ("9:00 AM - 9:50 AM"), 1, 1⟩

/-- A section whose meeting-time field is a string that does not parse. -/
def tbaEv : AcademicEvent :=
  ⟨['M'], "CS 295", "NH 064", some ("TBA - TBA"), 0, 4⟩

/-- A section whose meeting-time field is not a string at all. -/
def noTimeEv : AcademicEvent :=
  ⟨['M'], "CS 396", "NH 064", none, 0, 4⟩

/-- A concrete classification stream: meetings on days 0 and 2, exceptions on
days 1 and 3 (the latter after the last meeting). -/
def c6occ : List Classification :=
  [⟨0, true, false, false⟩, ⟨1, false, true, false⟩,
   ⟨2, true, false, false⟩, ⟨3, false, true, false⟩]

/-- A calendar date as the serializer sees it (a Python `datetime.date`):
year, month, day. -/
structure Date where
  year : Nat
  month : Nat
  day : Nat
deriving DecidableEq

def padStr (k n : Nat) : String := String.mk (padChars k n)

/-- Embeds `ics_date` from ical_writer.py: `date.strftime("%Y%m%d")`. -/
def ics_date (date : Date) : String :=
  padStr 4 date.year ++ padStr 2 date.month ++ padStr 2 date.day

/-- Embeds `ics_datetime` from ical_writer.py. -/
def ics_datetime (date : Date) (time : TimeHM) : String :=
  ics_date date ++ "T" ++ padStr 2 time.hour ++ padStr 2 time.minute ++ "00"

/-- Embeds `date_to_rrule` from ical_writer.py; `none` models the `KeyError` on a
letter outside the table. -/
def date_to_rrule (c : Char) : Option String :=
  if c = 'U' then some ("SU")
  else if c = 'M' then some ("MO")
  else if c = 'T' then some ("TU")
  else if c = 'W' then some ("WE")
  else if c = 'R' then some ("TH")
  else if c = 'F' then some ("FR")
  else if c = 'S' then some ("SA")
  else none

/-- Python `sep.join(xs)`. -/
def joinSep (sep : String) : List String → String
  | [] => ""
  | [s] => s
  | s :: rest => s ++ sep ++ joinSep sep rest

/-- The f-string body of `recurring_event` (ical_writer.py lines 78-89), with
the generated `uid` and `dtstamp` passed in explicitly (they come from
`uuid4()` and the clock). -/
def eventBody (dtstamp summary location : String) (first_date : Date)
    (start_time_p end_time_p : TimeHM) (uid rrule exceptions_str : String) :
    String :=
  "BEGIN:VEVENT" ++ "\n" ++
  "DTSTAMP:" ++ dtstamp ++ "\n" ++
  "SUMMARY:" ++ summary ++ "\n" ++
  "LOCATION:" ++ location ++ "\n" ++
  "DTSTART;TZID=America/Detroit:" ++ ics_datetime first_date start_time_p ++ "\n" ++
  "DTEND;TZID=America/Detroit:" ++ ics_datetime first_date end_time_p ++ "\n" ++
  "UID:" ++ uid ++ "\n" ++
  rrule ++ "\n" ++
  exceptions_str ++ "\n" ++
  "END:VEVENT" ++ "\n"

/-- Embeds `recurring_event` from ical_writer.py lines 69-89. `none` models the
`KeyError` from an unknown pattern letter, the crash on a missing `last_date`
with a non-null pattern, and the `assert len(exceptions) == 0` of the
null-pattern branch. -/
def recurring_event (first_date : Date) (last_date : Option Date)
    (summary location : String) (start_time_p end_time_p : TimeHM)
    (meeting_pattern : Option (List Char)) (exceptions : List Date)
    (uid dtstamp : String) : Option String :=
  match meeting_pattern, last_date with
  | some pat, some last =>
    (mapOpt date_to_rrule pat).map fun codes =>
      let pattern := joinSep (",") codes
      let rrule := "RRULE:FREQ=WEEKLY;INTERVAL=1;BYDAY=" ++ pattern ++
        ";UNTIL=" ++ ics_datetime last ⟨23, 59⟩ ++ "Z"
      let exceptions_str := joinSep ("\n") (exceptions.map fun exdate =>
        "EXDATE;TZID=America/Detroit:" ++ ics_datetime exdate start_time_p)
      eventBody dtstamp summary location first_date start_time_p
        end_time_p uid rrule exceptions_str
  | some _, none => none
  | none, _ =>
    if exceptions.isEmpty then
      some (eventBody dtstamp summary location first_date start_time_p
        end_time_p uid ("") (""))
    else none

/-- Split a character stream at every newline (the line structure that
`write_ics` later works on). -/
def splitLines : List Char → List (List Char)
  | [] => [[]]
  | c :: cs =>
    if c = '\n' then [] :: splitLines cs
    else
      match splitLines cs with
      | [] => [[c]]
      | l :: ls => (c :: l) :: ls

/-- The concrete serialized event used as witness input for the serializer
theorem. -/
def c9out : String :=
  match recurring_event ⟨2024, 9, 2⟩ (some ⟨2024, 12, 13⟩) "CS 108" "NH 253"
      ⟨9, 0⟩ ⟨9, 50⟩ (some ['M', 'W', 'F']) [⟨2024, 10, 21⟩] "u1"
      "20240901T000000Z" with
  | some s => s
  | none => ""

end Calgen

namespace Calgen

theorem iterFrom_length (sd : List SpecialDate) (days : List Nat) :
    ∀ (n cur : Nat) (flag : Bool), (iterFrom sd days cur n flag).length = n := by
  intro n
  induction n with
  | zero => intro cur flag; rfl
  | succ n ih => intro cur flag; simp [iterFrom, ih]

theorem iterFrom_getElem? (sd : List SpecialDate) (days : List Nat) :
    ∀ (n cur : Nat) (flag : Bool) (i : Nat), i < n →
      (iterFrom sd days cur n flag)[i]? = some (classifyAt sd days flag cur i) := by
  intro n
  induction n with
  | zero => intro cur flag i hi; omega
  | succ n ih =>
    intro cur flag i hi
    match i with
    | 0 =>
      simp [iterFrom, classifyAt, endedBefore]
    | Nat.succ i =>
      have hii : i < n := by omega
      calc (iterFrom sd days cur (n + 1) flag)[i + 1]?
          = (iterFrom sd days (cur + 1) n
              (flag || decide (effectiveDate sd cur = Effect.semesterEnd)))[i]? := by
            simp [iterFrom]
        _ = some (classifyAt sd days
              (flag || decide (effectiveDate sd cur = Effect.semesterEnd)) (cur + 1) i) :=
            ih (cur + 1) _ i hii
        _ = some (classifyAt sd days flag cur (i + 1)) := by
            simp only [classifyAt, endedBefore]
            have hd : cur + 1 + i = cur + (i + 1) := by omega
            rw [hd, Bool.or_assoc]

theorem endedBefore_nil : ∀ (i cur : Nat), endedBefore [] cur i = false := by
  intro i
  induction i with
  | zero => intro cur; rfl
  | succ i ih =>
    intro cur
    simp [endedBefore, effectiveDate, ih]

theorem endedBefore_of_semesterEnd (sd : List SpecialDate) :
    ∀ (j cur k : Nat), k < j →
      effectiveDate sd (cur + k) = Effect.semesterEnd →
      endedBefore sd cur j = true := by
  intro j
  induction j with
  | zero => intro cur k hk; omega
  | succ j ih =>
    intro cur k hk hsem
    match k with
    | 0 =>
      simp only [Nat.add_zero] at hsem
      simp [endedBefore, hsem]
    | Nat.succ k =>
      have hkj : k < j := by omega
      have hsem2 : effectiveDate sd (cur + 1 + k) = Effect.semesterEnd := by
        have : cur + 1 + k = cur + (k + 1) := by omega
        rw [this]; exact hsem
      simp [endedBefore, ih (cur + 1) k hkj hsem2]

theorem iterFrom_self_exclusive (sd : List SpecialDate) (days : List Nat) :
    ∀ (n cur : Nat) (flag : Bool) (c : Classification),
      c ∈ iterFrom sd days cur n flag →
      (c.is_exception && c.is_abnormal_meeting) = false := by
  intro n
  induction n with
  | zero => intro cur flag c hc; simp [iterFrom] at hc
  | succ n ih =>
    intro cur flag c hc
    simp only [iterFrom, List.mem_cons] at hc
    rcases hc with hc | hc
    · subst hc
      simp only
      cases days.contains (cur % 7) <;>
        cases effMatches (effectiveDate sd cur) days && !flag <;> rfl
    · exact ih (cur + 1) _ c hc

end Calgen

namespace Calgen

/-- Claim C1: in every resolver walk, once a date's matching exception has
effect `SemesterEnd`, every strictly later emitted classification has
`meets_today = false`, while the `SemesterEnd` date itself is classified by
the normal rule (only semester ends strictly before it can suppress it). -/
theorem iter_semester_end_sticky (s e : Nat) (pattern : List Char)
    (days : List Nat) (sd : List SpecialDate) (L : List Classification)
    (hp : mapOpt letter_to_day pattern = some days)
    (hL : iter_meeting_dates s e pattern sd = some L)
    (i : Nat) (hi : i < L.length)
    (hsem : effectiveDate sd (s + i) = Effect.semesterEnd) :
    (∀ j, i < j → j < L.length →
        L[j]?.map Classification.meets_today = some false) ∧
    L[i]? = some (classifyAt sd days false s i) := by
  have hLval : L = iterFrom sd days s (e + 1 - s) false := by
    rw [iter_meeting_dates, hp] at hL
    simpa using hL.symm
  have hlen : L.length = e + 1 - s := by rw [hLval, iterFrom_length]
  constructor
  · intro j hij hj
    have hjn : j < e + 1 - s := by omega
    rw [hLval, iterFrom_getElem? sd days _ s false j hjn]
    have hend : endedBefore sd s j = true :=
      endedBefore_of_semesterEnd sd j s i hij hsem
    simp [classifyAt, hend]
  · rw [hLval, iterFrom_getElem? sd days _ s false i (by omega)]

/-- Claim C4: with an empty exception list the resolver emits exactly one
classification per calendar day from `s` to `e` inclusive, and on each day
`meets_today` is exactly "weekday index of the day is in the pattern". -/
theorem iter_no_exceptions_baseline (s e : Nat) (pattern : List Char)
    (days : List Nat) (L : List Classification)
    (hp : mapOpt letter_to_day pattern = some days)
    (hL : iter_meeting_dates s e pattern [] = some L) :
    L.length = e + 1 - s ∧
    ∀ i, i < L.length →
      L[i]? = some ⟨s + i, days.contains ((s + i) % 7), false, false⟩ := by
  have hLval : L = iterFrom [] days s (e + 1 - s) false := by
    rw [iter_meeting_dates, hp] at hL
    simpa using hL.symm
  have hlen : L.length = e + 1 - s := by rw [hLval, iterFrom_length]
  refine ⟨hlen, ?_⟩
  intro i hi
  rw [hLval, iterFrom_getElem? [] days _ s false i (by omega)]
  simp only [classifyAt, endedBefore_nil, effectiveDate, List.foldl_nil,
    effMatches, Bool.or_false, Bool.not_false, Bool.and_true]
  cases h : days.contains ((s + i) % 7) <;> simp [h]

/-- Claim C5: for every classification the resolver emits, `is_exception` and
`is_abnormal_meeting` are never both true; and on an ordinary day — one where
the effective weekday agrees with the true weekday as far as the pattern is
concerned and the semester has not ended before it — both flags are false. -/
theorem iter_flags_exclusive (s e : Nat) (pattern : List Char)
    (days : List Nat) (sd : List SpecialDate) (L : List Classification)
    (hp : mapOpt letter_to_day pattern = some days)
    (hL : iter_meeting_dates s e pattern sd = some L) :
    (∀ c ∈ L, (c.is_exception && c.is_abnormal_meeting) = false) ∧
    (∀ i, i < L.length →
      effMatches (effectiveDate sd (s + i)) days = days.contains ((s + i) % 7) →
      endedBefore sd s i = false →
      L[i]?.map (fun c => c.is_exception || c.is_abnormal_meeting) = some false) := by
  have hLval : L = iterFrom sd days s (e + 1 - s) false := by
    rw [iter_meeting_dates, hp] at hL
    simpa using hL.symm
  have hlen : L.length = e + 1 - s := by rw [hLval, iterFrom_length]
  constructor
  · intro c hc
    rw [hLval] at hc
    exact iterFrom_self_exclusive sd days _ s false c hc
  · intro i hi hagree hend
    rw [hLval, iterFrom_getElem? sd days _ s false i (by omega)]
    simp only [classifyAt, hend, hagree, Bool.or_false, Bool.not_false,
      Bool.and_true, Option.map_some]
    cases h : days.contains ((s + i) % 7) <;> simp [h]

/-- Witness for claim C1: a concrete three-day walk with a semester-end
exception on the middle day; the middle day's classification follows the
normal rule. -/
theorem iter_semester_end_sticky_witness :
    ([⟨0, true, false, false⟩, ⟨1, false, true, false⟩, ⟨2, false, true, false⟩] :
        List Classification)[1]?
      = some (classifyAt [⟨1, "Exams", Effect.semesterEnd⟩] [0, 1, 2] false 0 1) :=
  (iter_semester_end_sticky 0 2 ['M', 'T', 'W'] [0, 1, 2]
    [⟨1, "Exams", Effect.semesterEnd⟩]
    [⟨0, true, false, false⟩, ⟨1, false, true, false⟩, ⟨2, false, true, false⟩]
    (by decide) (by decide) 1 (by decide) (by decide)).2

/-- Witness for claim C4: a concrete exception-free walk over seven days with
pattern `MWF` yields exactly seven classifications. -/
theorem iter_no_exceptions_baseline_witness :
    ([⟨3, false, false, false⟩, ⟨4, true, false, false⟩, ⟨5, false, false, false⟩,
      ⟨6, false, false, false⟩, ⟨7, true, false, false⟩, ⟨8, false, false, false⟩,
      ⟨9, true, false, false⟩] : List Classification).length = 9 + 1 - 3 :=
  (iter_no_exceptions_baseline 3 9 ['M', 'W', 'F'] [0, 2, 4]
    [⟨3, false, false, false⟩, ⟨4, true, false, false⟩, ⟨5, false, false, false⟩,
      ⟨6, false, false, false⟩, ⟨7, true, false, false⟩, ⟨8, false, false, false⟩,
      ⟨9, true, false, false⟩]
    (by decide) (by decide)).1

/-- Witness for claim C5: on a concrete ordinary meeting day both flags are
false. -/
theorem iter_flags_exclusive_witness :
    ([⟨0, true, false, false⟩] : List Classification)[0]?.map
        (fun c => c.is_exception || c.is_abnormal_meeting) = some false :=
  (iter_flags_exclusive 0 0 ['M'] [0] [] [⟨0, true, false, false⟩]
    (by decide) (by decide)).2 0 (by decide) (by decide) (by decide)

theorem effectiveDate_foldl_overwrite (cur : Nat) :
    ∀ (sd : List SpecialDate) (init : Effect),
      sd.foldl (fun eff special => if special.date = cur then special.pattern else eff) init
        = match sd.reverse.find? (fun s => s.date == cur) with
          | some s => s.pattern
          | none => init := by
  intro sd
  induction sd with
  | nil => intro init; rfl
  | cons a t ih =>
    intro init
    rw [List.foldl_cons, ih, List.reverse_cons, List.find?_append]
    cases h : t.reverse.find? (fun s => s.date == cur) with
    | some s => simp [h]
    | none =>
      by_cases had : a.date = cur
      · simp [h, List.find?, had]
      · have hb : (a.date == cur) = false := by simpa [beq_iff_eq] using had
        simp [h, List.find?, had, hb]

theorem dedupKeepFirstF_eq_nil_iff :
    ∀ (fuel : Nat) (l : List Nat), dedupKeepFirstF (l.length + fuel) l = [] ↔ l = [] := by
  intro fuel l
  cases l with
  | nil => cases fuel <;> simp [dedupKeepFirstF]
  | cons d ds => simp [dedupKeepFirstF, Nat.succ_add]

/-- Counterexample to claim C2 as stated: with two entries on date 10, the
spec's first-match rule gives weekday 0 (so pattern `M` would meet), but the
resolver's scan keeps the last entry's weekday 1 and classifies the day as not
meeting; the duplicate is still detected for the warning, and the walk still
produces its output. -/
theorem duplicate_first_match_counterexample :
    firstMatchEffective_spec dupExcs 10 = Effect.weekday 0 ∧
    effMatches (firstMatchEffective_spec dupExcs 10) [0] = true ∧
    effectiveDate dupExcs 10 = Effect.weekday 1 ∧
    iter_meeting_dates 10 10 ['M'] dupExcs = some [⟨10, false, false, false⟩] ∧
    duplicated_dates dupExcs = [10] := by
  decide

/-- Claim C2 (amended): when several exception entries target the same date,
the LAST matching entry in table order determines the effective weekday the
resolver uses; the duplicate-date warning condition holds exactly when the
date column of the table is not duplicate-free. -/
theorem exception_overlay_last_match (sd : List SpecialDate) (d : Nat) :
    effectiveDate sd d = lastMatchEffective sd d ∧
    (duplicated_dates sd = [] ↔ (sd.map SpecialDate.date).Nodup) := by
  constructor
  · rw [effectiveDate, effectiveDate_foldl_overwrite, lastMatchEffective,
      firstMatchEffective_spec]
  · rw [duplicated_dates, dedupKeepFirst]
    have hnil := dedupKeepFirstF_eq_nil_iff 0
      ((sd.map SpecialDate.date).filter
        (fun d => decide (1 < (sd.map SpecialDate.date).count d)))
    rw [Nat.add_zero] at hnil
    rw [hnil, List.filter_eq_nil_iff, List.nodup_iff_count_le_one]
    constructor
    · intro h a
      by_cases ha : a ∈ sd.map SpecialDate.date
      · have := h a ha
        simp only [decide_eq_true_eq] at this
        omega
      · rw [List.count_eq_zero.mpr ha]
        omega
    · intro h a _
      have := h a
      simp only [decide_eq_true_eq]
      omega

theorem takeWhile_digits_append (d1 : List Char) (c : Char) (t : List Char)
    (hd : ∀ x ∈ d1, x.isDigit = true) (hc : c.isDigit = false) :
    (d1 ++ c :: t).takeWhile Char.isDigit = d1 ∧
    (d1 ++ c :: t).dropWhile Char.isDigit = c :: t := by
  induction d1 with
  | nil => simp [List.takeWhile_cons, List.dropWhile_cons, hc]
  | cons a d1 ih =>
    have ha : a.isDigit = true := hd a (by simp)
    have hd1 : ∀ x ∈ d1, x.isDigit = true := fun x hx => hd x (by simp [hx])
    obtain ⟨h1, h2⟩ := ih hd1
    simp [List.takeWhile_cons, List.dropWhile_cons, ha, h1, h2]

theorem parseDigits_append (d1 : List Char) (c : Char) (t : List Char)
    (hne : d1 ≠ []) (hd : ∀ x ∈ d1, x.isDigit = true) (hc : c.isDigit = false) :
    parseDigits (d1 ++ c :: t) = some (natFromDigits d1, c :: t) := by
  obtain ⟨h1, h2⟩ := takeWhile_digits_append d1 c t hd hc
  have hemp : d1.isEmpty = false := by
    cases d1 with
    | nil => exact absurd rfl hne
    | cons a l => rfl
  simp [parseDigits, h1, h2, hemp]

theorem matchTime_wellformed (d1 d2 rest : List Char) (pm : Bool)
    (h1 : d1 ≠ []) (hd1 : ∀ c ∈ d1, c.isDigit = true)
    (h2 : d2 ≠ []) (hd2 : ∀ c ∈ d2, c.isDigit = true) :
    matchTime (d1 ++ ':' :: (d2 ++ ' ' :: ((if pm then ['P', 'M'] else ['A', 'M']) ++ rest)))
      = some (natFromDigits d1, natFromDigits d2,
          if pm then Meridian.PM else Meridian.AM) := by
  cases pm with
  | false =>
    have e1 := parseDigits_append d1 ':' (d2 ++ ' ' :: 'A' :: 'M' :: rest) h1 hd1 (by decide)
    have e2 := parseDigits_append d2 ' ' ('A' :: 'M' :: rest) h2 hd2 (by decide)
    simp only [if_neg (by simp : ¬ (false : Bool) = true), List.cons_append,
      List.nil_append]
    simp only [matchTime, e1, e2]
  | true =>
    have e1 := parseDigits_append d1 ':' (d2 ++ ' ' :: 'P' :: 'M' :: rest) h1 hd1 (by decide)
    have e2 := parseDigits_append d2 ' ' ('P' :: 'M' :: rest) h2 hd2 (by decide)
    simp [matchTime, e1, e2]

theorem natFromDigits_append_singleton (ds : List Char) (c : Char) :
    natFromDigits (ds ++ [c]) = 10 * natFromDigits ds + (c.toNat - 48) := by
  simp [natFromDigits, List.foldl_append]

theorem digitChar_facts :
    ∀ n, n < 10 → (Nat.digitChar n).isDigit = true ∧ (Nat.digitChar n).toNat = 48 + n := by
  decide

theorem natToCharsF_spec :
    ∀ (fuel n : Nat), n < 10 ^ (fuel + 1) →
      natFromDigits (natToCharsF (fuel + 1) n) = n ∧
      (∀ c ∈ natToCharsF (fuel + 1) n, c.isDigit = true) ∧
      natToCharsF (fuel + 1) n ≠ [] := by
  intro fuel
  induction fuel with
  | zero =>
    intro n hn
    have h10 : n < 10 := by simpa using hn
    obtain ⟨hdig, hval⟩ := digitChar_facts n h10
    refine ⟨?_, ?_, ?_⟩
    · simp [natToCharsF, h10, natFromDigits, hval]
    · intro c hc
      simp [natToCharsF, h10] at hc
      rw [hc]; exact hdig
    · simp [natToCharsF, h10]
  | succ fuel ih =>
    intro n hn
    by_cases h10 : n < 10
    · obtain ⟨hdig, hval⟩ := digitChar_facts n h10
      refine ⟨?_, ?_, ?_⟩
      · simp [natToCharsF, h10, natFromDigits, hval]
      · intro c hc
        simp [natToCharsF, h10] at hc
        rw [hc]; exact hdig
      · simp [natToCharsF, h10]
    · have hdiv : n / 10 < 10 ^ (fuel + 1) := by
        rw [Nat.div_lt_iff_lt_mul (by norm_num)]
        calc n < 10 ^ (fuel + 1 + 1) := hn
          _ = 10 ^ (fuel + 1) * 10 := by rw [pow_succ]
      obtain ⟨hval, hdig, hne⟩ := ih (n / 10) hdiv
      have hmod : n % 10 < 10 := Nat.mod_lt n (by norm_num)
      obtain ⟨hdigm, hvalm⟩ := digitChar_facts (n % 10) hmod
      have hun : natToCharsF (fuel + 1 + 1) n
          = natToCharsF (fuel + 1) (n / 10) ++ [Nat.digitChar (n % 10)] := by
        simp [natToCharsF, h10]
      refine ⟨?_, ?_, ?_⟩
      · rw [hun, natFromDigits_append_singleton, hval, hvalm]
        omega
      · intro c hc
        rw [hun] at hc
        rcases List.mem_append.mp hc with hc | hc
        · exact hdig c hc
        · simp at hc; rw [hc]; exact hdigm
      · rw [hun]; simp

theorem natToChars_spec (n : Nat) :
    natFromDigits (natToChars n) = n ∧
    (∀ c ∈ natToChars n, c.isDigit = true) ∧ natToChars n ≠ [] := by
  have hb : n < 10 ^ (n + 1) := by
    calc n < 10 ^ n := Nat.lt_pow_self (by norm_num) n
      _ ≤ 10 ^ (n + 1) := Nat.pow_le_pow_right (by norm_num) (by omega)
  exact natToCharsF_spec n n hb

theorem natFromDigits_replicate_zero (k : Nat) (ds : List Char) :
    natFromDigits (List.replicate k '0' ++ ds) = natFromDigits ds := by
  induction k with
  | zero => rfl
  | succ k ih =>
    rw [List.replicate_succ, List.cons_append]
    exact ih

theorem padChars_spec (k n : Nat) :
    natFromDigits (padChars k n) = n ∧
    (∀ c ∈ padChars k n, c.isDigit = true) ∧ padChars k n ≠ [] := by
  obtain ⟨hval, hdig, hne⟩ := natToChars_spec n
  refine ⟨?_, ?_, ?_⟩
  · rw [padChars, natFromDigits_replicate_zero, hval]
  · intro c hc
    rcases List.mem_append.mp hc with hc | hc
    · rw [List.eq_of_mem_replicate hc]; rfl
    · exact hdig c hc
  · rw [padChars]
    intro hcon
    exact hne (by simpa using List.append_eq_nil.mp hcon |>.2)

theorem parseDigits_some_inv (cs : List Char) (n : Nat) (r : List Char)
    (h : parseDigits cs = some (n, r)) :
    cs = cs.takeWhile Char.isDigit ++ r ∧ cs.takeWhile Char.isDigit ≠ [] ∧
    n = natFromDigits (cs.takeWhile Char.isDigit) ∧
    (∀ c ∈ cs.takeWhile Char.isDigit, c.isDigit = true) := by
  by_cases he : (cs.takeWhile Char.isDigit).isEmpty
  · simp [parseDigits, he] at h
  · simp only [parseDigits, if_neg he, Option.some.injEq, Prod.mk.injEq] at h
    obtain ⟨h1, h2⟩ := h
    refine ⟨?_, ?_, h1.symm, fun c hc => List.mem_takeWhile_imp hc⟩
    · conv_lhs => rw [← List.takeWhile_append_dropWhile (p := Char.isDigit) (l := cs)]
      rw [h2]
    · intro hc
      rw [hc] at he
      exact he rfl

theorem matchTime_some_inv (cs : List Char) (n1 n2 : Nat) (mer : Meridian)
    (h : matchTime cs = some (n1, n2, mer)) :
    ∃ d1 d2 rest, cs = d1 ++ ':' :: (d2 ++ ' ' ::
        ((if mer = Meridian.PM then ['P', 'M'] else ['A', 'M']) ++ rest)) ∧
      d1 ≠ [] ∧ d2 ≠ [] ∧
      (∀ c ∈ d1, c.isDigit = true) ∧ (∀ c ∈ d2, c.isDigit = true) := by
  unfold matchTime at h
  split at h
  case h_1 hour rest1 heq =>
    split at h
    case h_1 minute tail heq2 =>
      simp only [Option.some.injEq, Prod.mk.injEq] at h
      obtain ⟨rfl, rfl, rfl⟩ := h
      obtain ⟨s1, ne1, _, dig1⟩ := parseDigits_some_inv cs _ _ heq
      obtain ⟨s2, ne2, _, dig2⟩ := parseDigits_some_inv rest1 _ _ heq2
      refine ⟨cs.takeWhile Char.isDigit, rest1.takeWhile Char.isDigit, tail,
        ?_, ne1, ne2, dig1, dig2⟩
      conv_lhs => rw [s1, s2]
      simp
    case h_2 minute tail heq2 =>
      simp only [Option.some.injEq, Prod.mk.injEq] at h
      obtain ⟨rfl, rfl, rfl⟩ := h
      obtain ⟨s1, ne1, _, dig1⟩ := parseDigits_some_inv cs _ _ heq
      obtain ⟨s2, ne2, _, dig2⟩ := parseDigits_some_inv rest1 _ _ heq2
      refine ⟨cs.takeWhile Char.isDigit, rest1.takeWhile Char.isDigit, tail,
        ?_, ne1, ne2, dig1, dig2⟩
      conv_lhs => rw [s1, s2]
      simp
    case h_3 => exact absurd h (by simp)
  case h_2 => exact absurd h (by simp)

/-- Claim C7: `parse_time` maps every well-formed `H:MM AM|PM` string to the
24-hour record obtained by treating an hour literal of 12 as 0 before the PM
+12 adjustment, and in particular reproduces the four doctest values. -/
theorem parse_time_wellformed_24h :
    (∀ (h m : Nat) (pm : Bool),
      parse_time (String.mk (natToChars h ++ ':' :: (padChars 2 m ++ ' ' ::
          ((if pm then ['P', 'M'] else ['A', 'M']) ++ []))))
        = some ⟨if pm then (if h = 12 then 0 else h) + 12
                else if h = 12 then 0 else h, m⟩) ∧
    parse_time ("9:55 AM") = some ⟨9, 55⟩ ∧
    parse_time ("12:15 PM") = some ⟨12, 15⟩ ∧
    parse_time ("1:00 PM") = some ⟨13, 0⟩ ∧
    parse_time ("12:05 AM") = some ⟨0, 5⟩ := by
  refine ⟨?_, by decide, by decide, by decide, by decide⟩
  intro h m pm
  obtain ⟨hval1, hdig1, hne1⟩ := natToChars_spec h
  obtain ⟨hval2, hdig2, hne2⟩ := padChars_spec 2 m
  have hm := matchTime_wellformed (natToChars h) (padChars 2 m) [] pm hne1 hdig1 hne2 hdig2
  unfold parse_time
  rw [show (String.mk (natToChars h ++ ':' :: (padChars 2 m ++ ' ' ::
      ((if pm then ['P', 'M'] else ['A', 'M']) ++ [])))).data
    = natToChars h ++ ':' :: (padChars 2 m ++ ' ' ::
      ((if pm then ['P', 'M'] else ['A', 'M']) ++ [])) from rfl]
  rw [hm, hval1, hval2]
  cases pm <;> simp

/-- Claim C10: `parse_time` succeeds on exactly the strings whose prefix is
digits, `:`, digits, space, `AM` or `PM` — with no range validation of hour
or minute and arbitrary ignored trailing characters — and fails only when
that prefix is absent. -/
theorem parse_time_prefix_shape :
    (∀ (d1 d2 rest : List Char) (pm : Bool),
      d1 ≠ [] → d2 ≠ [] →
      (∀ c ∈ d1, c.isDigit = true) → (∀ c ∈ d2, c.isDigit = true) →
      parse_time (String.mk (d1 ++ ':' :: (d2 ++ ' ' ::
          ((if pm then ['P', 'M'] else ['A', 'M']) ++ rest))))
        = some ⟨if pm then (if natFromDigits d1 = 12 then 0 else natFromDigits d1) + 12
                else if natFromDigits d1 = 12 then 0 else natFromDigits d1,
                natFromDigits d2⟩) ∧
    (∀ (x : String) (t : TimeHM), parse_time x = some t →
      ∃ (d1 d2 rest : List Char) (pm : Bool),
        x.data = d1 ++ ':' :: (d2 ++ ' ' ::
          ((if pm then ['P', 'M'] else ['A', 'M']) ++ rest)) ∧
        d1 ≠ [] ∧ d2 ≠ [] ∧
        (∀ c ∈ d1, c.isDigit = true) ∧ (∀ c ∈ d2, c.isDigit = true)) ∧
    parse_time ("19:30 PM") = some ⟨31, 30⟩ ∧
    parse_time ("9:55 AM extra") = some ⟨9, 55⟩ := by
  refine ⟨?_, ?_, by decide, by decide⟩
  · intro d1 d2 rest pm h1 h2 hd1 hd2
    have hm := matchTime_wellformed d1 d2 rest pm h1 hd1 h2 hd2
    unfold parse_time
    rw [show (String.mk (d1 ++ ':' :: (d2 ++ ' ' ::
        ((if pm then ['P', 'M'] else ['A', 'M']) ++ rest)))).data
      = d1 ++ ':' :: (d2 ++ ' ' ::
        ((if pm then ['P', 'M'] else ['A', 'M']) ++ rest)) from rfl]
    rw [hm]
    cases pm <;> simp
  · intro x t h
    simp only [parse_time] at h
    cases hmt : matchTime x.data with
    | none => rw [hmt] at h; simp at h
    | some tr =>
      obtain ⟨m1, m2, mer⟩ := tr
      obtain ⟨d1, d2, rest, hshape, hne1, hne2, hdig1, hdig2⟩ :=
        matchTime_some_inv x.data m1 m2 mer hmt
      cases mer with
      | AM =>
        exact ⟨d1, d2, rest, false, by simpa using hshape, hne1, hne2, hdig1, hdig2⟩
      | PM =>
        exact ⟨d1, d2, rest, true, by simpa using hshape, hne1, hne2, hdig1, hdig2⟩

/-- Witness for claim C10: a concrete out-of-range, trailing-character input
accepted by the prefix rule. -/
theorem parse_time_prefix_shape_witness :
    parse_time (String.mk (['7'] ++ ':' :: (['0', '5'] ++ ' ' ::
        ((if true then ['P', 'M'] else ['A', 'M']) ++ ['x'])))) = some ⟨19, 5⟩ :=
  parse_time_prefix_shape.1 ['7'] ['0', '5'] ['x'] true (by decide) (by decide)
    (by decide) (by decide)

/-- Claim C6: every element of the computed `exceptions_dates` is the date of
a classification with `is_exception` true, and none exceeds the last actual
meeting date. -/
theorem exceptions_dates_bounded (occurrences : List Classification) (last : Nat)
    (hlast : last_meeting_date? occurrences = some last) :
    ∀ d ∈ exceptions_dates occurrences last,
      d ≤ last ∧
      d ∈ (occurrences.filter (fun c => c.is_exception)).map (fun c => c.date) := by
  intro d hd
  rw [exceptions_dates] at hd
  obtain ⟨c, hc, rfl⟩ := List.mem_map.mp hd
  obtain ⟨hcmem, hcb⟩ := List.mem_filter.mp hc
  rw [Bool.and_eq_true, decide_eq_true_iff] at hcb
  exact ⟨hcb.2, List.mem_map.mpr ⟨c, List.mem_filter.mpr ⟨hcmem, hcb.1⟩, rfl⟩⟩

/-- Witness for claim C6 on a concrete classification stream: the surviving
exclusion date 1 is bounded by the last meeting date 2 and marked as an
exception (the day-3 exception was dropped). -/
theorem exceptions_dates_bounded_witness :
    1 ≤ 2 ∧ 1 ∈ (c6occ.filter (fun c => c.is_exception)).map (fun c => c.date) :=
  exceptions_dates_bounded c6occ 2 (by decide) 1 (by decide)

/-- Claim C3, evaluated at a failing input: a section whose classification
stream contains no meeting date makes the whole run end with the no-meetings
failure — the good section after it is never processed — although the good
section alone succeeds; the failing section's stream really has no meeting. -/
theorem no_meetings_aborts_run :
    runSections [] [noMeetEv, goodEv] = Except.error SectionError.noMeetings ∧
    runSections [] [goodEv] = Except.ok
      [⟨0, some 0, "CS 108", "NH 253", ⟨9, 0⟩, ⟨9, 50⟩, some ['M'], []⟩] ∧
    iter_meeting_dates 1 1 ['M'] [] = some [⟨1, false, false, false⟩] ∧
    actual_occurrences [⟨1, false, false, false⟩] = [] :=
  ⟨rfl, rfl, rfl, rfl⟩

/-- Claim C8, evaluated at a failing input: a section whose meeting-time field
is a non-parseable string ends the whole run with the time-parse failure (the
good section after it is never processed); only a section whose meeting-time
field is missing entirely is skipped, after which the run continues. -/
theorem time_parse_aborts_run :
    runSections [] [tbaEv, goodEv] = Except.error SectionError.timeParse ∧
    parse_time ("TBA") = none ∧
    runSections [] [noTimeEv, goodEv] = Except.ok
      [⟨0, some 0, "CS 108", "NH 253", ⟨9, 0⟩, ⟨9, 50⟩, some ['M'], []⟩] :=
  ⟨rfl, rfl, rfl⟩

theorem string_data_append (a b : String) : (a ++ b).data = a.data ++ b.data := rfl

theorem splitLines_ne_nil (cs : List Char) : splitLines cs ≠ [] := by
  induction cs with
  | nil => simp [splitLines]
  | cons c cs ih =>
    simp only [splitLines]
    by_cases hc : c = '\n'
    · simp [hc]
    · rw [if_neg hc]
      cases h : splitLines cs <;> simp

theorem splitLines_chunk (a b : List Char) (ha : ∀ c ∈ a, c ≠ '\n') :
    splitLines (a ++ b) = (a ++ (splitLines b).headI) :: (splitLines b).tail := by
  induction a with
  | nil =>
    simp only [List.nil_append]
    cases h : splitLines b with
    | nil => exact absurd h (splitLines_ne_nil b)
    | cons l ls => simp [h]
  | cons c a ih =>
    have hc : c ≠ '\n' := ha c (by simp)
    have ha' : ∀ x ∈ a, x ≠ '\n' := fun x hx => ha x (by simp [hx])
    simp only [List.cons_append, splitLines, if_neg hc, List.append_eq]
    rw [ih ha']

theorem splitLines_line (a b : List Char) (ha : ∀ c ∈ a, c ≠ '\n') :
    splitLines (a ++ '\n' :: b) = a :: splitLines b := by
  rw [splitLines_chunk a ('\n' :: b) ha]
  have h : splitLines ('\n' :: b) = [] :: splitLines b := by
    simp [splitLines]
  rw [h]
  simp

theorem splitLines_chunk_line (a b rest : List Char)
    (ha : ∀ c ∈ a, c ≠ '\n') (hb : ∀ c ∈ b, c ≠ '\n') :
    splitLines (a ++ (b ++ '\n' :: rest)) = (a ++ b) :: splitLines rest := by
  rw [splitLines_chunk a (b ++ '\n' :: rest) ha, splitLines_line b rest hb]
  simp

theorem splitLines_joinNL (xs : List String) (b : List Char)
    (h : ∀ x ∈ xs, ∀ c ∈ x.data, c ≠ '\n') :
    splitLines ((joinSep ("\n") xs).data ++ '\n' :: b)
      = (if xs = [] then [[]] else xs.map String.data) ++ splitLines b := by
  induction xs with
  | nil =>
    simp [joinSep, splitLines]
  | cons s xs ih =>
    cases xs with
    | nil =>
      simp only [joinSep]
      rw [splitLines_line s.data b (h s (by simp))]
      simp
    | cons s2 rest =>
      have hs : ∀ c ∈ s.data, c ≠ '\n' := h s (by simp)
      have h2 : ∀ x ∈ s2 :: rest, ∀ c ∈ x.data, c ≠ '\n' :=
        fun x hx => h x (List.mem_cons_of_mem s hx)
      have hJ : (joinSep ("\n") (s :: s2 :: rest)).data
          = s.data ++ '\n' :: (joinSep ("\n") (s2 :: rest)).data := by
        show (s ++ "\n" ++ joinSep ("\n") (s2 :: rest)).data = _
        rw [string_data_append, string_data_append,
          show ("\n" : String).data = ['\n'] from rfl]
        simp
      rw [hJ, List.append_assoc, List.cons_append]
      rw [splitLines_line s.data _ hs, ih h2]
      simp

theorem char_isDigit_ne_nl (c : Char) (h : c.isDigit = true) : c ≠ '\n' := by
  intro he
  rw [he] at h
  exact absurd h (by decide)

theorem padStr_noNL (k n : Nat) : ∀ c ∈ (padStr k n).data, c ≠ '\n' :=
  fun c hc => char_isDigit_ne_nl c ((padChars_spec k n).2.1 c hc)

theorem ics_datetime_noNL (d : Date) (t : TimeHM) :
    ∀ c ∈ (ics_datetime d t).data, c ≠ '\n' := by
  intro c hc he
  subst he
  simp only [ics_datetime, ics_date, string_data_append, List.mem_append,
    List.append_assoc] at hc
  rcases hc with hc | hc | hc | hc | hc | hc | hc
  · exact padStr_noNL 4 d.year _ hc rfl
  · exact padStr_noNL 2 d.month _ hc rfl
  · exact padStr_noNL 2 d.day _ hc rfl
  · simp at hc
  · exact padStr_noNL 2 t.hour _ hc rfl
  · exact padStr_noNL 2 t.minute _ hc rfl
  · simp at hc

theorem date_to_rrule_noNL (c : Char) (s : String) (h : date_to_rrule c = some s) :
    ∀ x ∈ s.data, x ≠ '\n' := by
  unfold date_to_rrule at h
  split_ifs at h <;>
    first
      | exact Option.noConfusion h
      | (injection h with h2; subst h2; decide)

theorem mapOpt_mem (f : α → Option β) :
    ∀ (l : List α) (bs : List β), mapOpt f l = some bs →
      ∀ b ∈ bs, ∃ a, f a = some b := by
  intro l
  induction l with
  | nil =>
    intro bs h b hb
    simp only [mapOpt, Option.some.injEq] at h
    subst h
    simp at hb
  | cons a t ih =>
    intro bs h b hb
    simp only [mapOpt] at h
    cases hfa : f a with
    | none => rw [hfa] at h; simp at h
    | some b0 =>
      cases hmt : mapOpt f t with
      | none => rw [hfa, hmt] at h; simp at h
      | some bs0 =>
        rw [hfa, hmt] at h
        simp only [Option.some.injEq] at h
        subst h
        rcases List.mem_cons.mp hb with rfl | hmem
        · exact ⟨a, hfa⟩
        · exact ih bs0 hmt b hmem

theorem joinSep_noNL (sep : String) (xs : List String)
    (hsep : ∀ c ∈ sep.data, c ≠ '\n')
    (h : ∀ x ∈ xs, ∀ c ∈ x.data, c ≠ '\n') :
    ∀ c ∈ (joinSep sep xs).data, c ≠ '\n' := by
  induction xs with
  | nil =>
    intro c hc
    simp [joinSep] at hc
  | cons s xs ih =>
    cases xs with
    | nil =>
      intro c hc
      exact h s (by simp) c (by simpa [joinSep] using hc)
    | cons s2 rest =>
      intro c hc
      have hxs : ∀ x ∈ s2 :: rest, ∀ c ∈ x.data, c ≠ '\n' :=
        fun x hx => h x (List.mem_cons_of_mem s hx)
      rw [show joinSep sep (s :: s2 :: rest) = s ++ sep ++ joinSep sep (s2 :: rest)
        from rfl] at hc
      simp only [string_data_append, List.mem_append] at hc
      rcases hc with (hc | hc) | hc
      · exact h s (by simp) c hc
      · exact hsep c hc
      · exact ih hxs c hc

theorem splitLines_eventBody (dtstamp summary location : String) (first : Date)
    (st et : TimeHM) (uid rrule exceptions_str : String)
    (hd : ∀ c ∈ dtstamp.data, c ≠ '\n') (hs : ∀ c ∈ summary.data, c ≠ '\n')
    (hl : ∀ c ∈ location.data, c ≠ '\n') (hu : ∀ c ∈ uid.data, c ≠ '\n')
    (hr : ∀ c ∈ rrule.data, c ≠ '\n') :
    splitLines (eventBody dtstamp summary location first st et uid rrule
        exceptions_str).data
      = ["BEGIN:VEVENT".data, "DTSTAMP:".data ++ dtstamp.data,
         "SUMMARY:".data ++ summary.data, "LOCATION:".data ++ location.data,
         "DTSTART;TZID=America/Detroit:".data ++ (ics_datetime first st).data,
         "DTEND;TZID=America/Detroit:".data ++ (ics_datetime first et).data,
         "UID:".data ++ uid.data, rrule.data]
        ++ splitLines (exceptions_str.data ++ '\n' :: ("END:VEVENT".data ++ '\n' :: [])) := by
  have hform : (eventBody dtstamp summary location first st et uid rrule
      exceptions_str).data
      = "BEGIN:VEVENT".data ++ '\n' ::
        ("DTSTAMP:".data ++ (dtstamp.data ++ '\n' ::
        ("SUMMARY:".data ++ (summary.data ++ '\n' ::
        ("LOCATION:".data ++ (location.data ++ '\n' ::
        ("DTSTART;TZID=America/Detroit:".data ++ ((ics_datetime first st).data ++ '\n' ::
        ("DTEND;TZID=America/Detroit:".data ++ ((ics_datetime first et).data ++ '\n' ::
        ("UID:".data ++ (uid.data ++ '\n' ::
        (rrule.data ++ '\n' ::
        (exceptions_str.data ++ '\n' ::
        ("END:VEVENT".data ++ '\n' :: []))))))))))))))) := by
    unfold eventBody
    simp [string_data_append, List.append_assoc]
  rw [hform]
  rw [splitLines_line _ _ (by decide)]
  rw [splitLines_chunk_line _ _ _ (by decide) hd]
  rw [splitLines_chunk_line _ _ _ (by decide) hs]
  rw [splitLines_chunk_line _ _ _ (by decide) hl]
  rw [splitLines_chunk_line _ _ _ (by decide) (ics_datetime_noNL first st)]
  rw [splitLines_chunk_line _ _ _ (by decide) (ics_datetime_noNL first et)]
  rw [splitLines_chunk_line _ _ _ (by decide) hu]
  rw [splitLines_line _ _ hr]
  simp

/-- Claim C9: for a descriptor with a non-null weekday pattern, the serialized
VEVENT consists of the fixed header lines, a weekly recurrence rule whose
BYDAY joins the per-letter wire codes and whose UNTIL is 23:59 of `last_date`,
exactly one `EXDATE` line per excluded date at the event's start time in the
fixed `America/Detroit` timezone, and the closing line — and the letter-to-code
table is exactly M→MO, T→TU, W→WE, R→TH, F→FR, S→SA, U→SU. -/
theorem recurring_event_serialization
    (first last : Date) (summary location uid dtstamp : String)
    (st et : TimeHM) (pat : List Char) (codes : List String) (excs : List Date)
    (out : String)
    (hcodes : mapOpt date_to_rrule pat = some codes)
    (hs : ∀ c ∈ summary.data, c ≠ '\n') (hl : ∀ c ∈ location.data, c ≠ '\n')
    (hu : ∀ c ∈ uid.data, c ≠ '\n') (hd : ∀ c ∈ dtstamp.data, c ≠ '\n')
    (hout : recurring_event first (some last) summary location st et (some pat)
        excs uid dtstamp = some out) :
    (splitLines out.data
      = ["BEGIN:VEVENT".data, "DTSTAMP:".data ++ dtstamp.data,
         "SUMMARY:".data ++ summary.data, "LOCATION:".data ++ location.data,
         "DTSTART;TZID=America/Detroit:".data ++ (ics_datetime first st).data,
         "DTEND;TZID=America/Detroit:".data ++ (ics_datetime first et).data,
         "UID:".data ++ uid.data,
         ("RRULE:FREQ=WEEKLY;INTERVAL=1;BYDAY=" ++ joinSep (",") codes ++
           ";UNTIL=" ++ ics_datetime last ⟨23, 59⟩ ++ "Z").data]
        ++ (if excs = [] then [[]]
            else excs.map (fun exdate =>
              ("EXDATE;TZID=America/Detroit:" ++ ics_datetime exdate st).data))
        ++ ["END:VEVENT".data, []]) ∧
    date_to_rrule 'M' = some ("MO") ∧ date_to_rrule 'T' = some ("TU") ∧
    date_to_rrule 'W' = some ("WE") ∧ date_to_rrule 'R' = some ("TH") ∧
    date_to_rrule 'F' = some ("FR") ∧ date_to_rrule 'S' = some ("SA") ∧
    date_to_rrule 'U' = some ("SU") := by
  refine ⟨?_, by decide, by decide, by decide, by decide, by decide, by decide,
    by decide⟩
  have h2 : (mapOpt date_to_rrule pat).map (fun codes =>
      eventBody dtstamp summary location first st et uid
        ("RRULE:FREQ=WEEKLY;INTERVAL=1;BYDAY=" ++ joinSep (",") codes ++
          ";UNTIL=" ++ ics_datetime last ⟨23, 59⟩ ++ "Z")
        (joinSep ("\n") (excs.map fun exdate =>
          "EXDATE;TZID=America/Detroit:" ++ ics_datetime exdate st))) = some out :=
    hout
  rw [hcodes, Option.map_some'] at h2
  have hout2 := Option.some.inj h2
  subst hout2
  have hcodesNoNL : ∀ x ∈ codes, ∀ c ∈ x.data, c ≠ '\n' := by
    intro x hx
    obtain ⟨a, ha⟩ := mapOpt_mem date_to_rrule pat codes hcodes x hx
    exact date_to_rrule_noNL a x ha
  have hr : ∀ c ∈ ("RRULE:FREQ=WEEKLY;INTERVAL=1;BYDAY=" ++ joinSep (",") codes ++
      ";UNTIL=" ++ ics_datetime last ⟨23, 59⟩ ++ "Z").data, c ≠ '\n' := by
    intro c hc he
    subst he
    simp only [string_data_append, List.mem_append, List.append_assoc] at hc
    rcases hc with hc | hc | hc | hc | hc
    · simp at hc
    · exact joinSep_noNL (",") codes (by decide) hcodesNoNL _ hc rfl
    · simp at hc
    · exact ics_datetime_noNL last ⟨23, 59⟩ _ hc rfl
    · simp at hc
  have hexNoNL : ∀ x ∈ excs.map (fun exdate =>
      "EXDATE;TZID=America/Detroit:" ++ ics_datetime exdate st),
      ∀ c ∈ x.data, c ≠ '\n' := by
    intro x hx
    obtain ⟨e, _, rfl⟩ := List.mem_map.mp hx
    intro c hc he
    subst he
    simp only [string_data_append, List.mem_append] at hc
    rcases hc with hc | hc
    · simp at hc
    · exact ics_datetime_noNL e st _ hc rfl
  rw [splitLines_eventBody dtstamp summary location first st et uid _ _
    hd hs hl hu hr]
  rw [splitLines_joinNL _ _ hexNoNL]
  rw [splitLines_line ("END:VEVENT".data) [] (by decide)]
  rcases excs with _ | ⟨e, es⟩
  · simp [splitLines]
  · simp [splitLines, List.map_map, Function.comp]

/-- Witness for claim C9 at a fully concrete descriptor (pattern `MWF`, one
excluded date). -/
theorem recurring_event_serialization_witness :
    splitLines c9out.data
      = ["BEGIN:VEVENT".data,
         "DTSTAMP:".data ++ ("20240901T000000Z" : String).data,
         "SUMMARY:".data ++ ("CS 108" : String).data,
         "LOCATION:".data ++ ("NH 253" : String).data,
         "DTSTART;TZID=America/Detroit:".data ++ (ics_datetime ⟨2024, 9, 2⟩ ⟨9, 0⟩).data,
         "DTEND;TZID=America/Detroit:".data ++ (ics_datetime ⟨2024, 9, 2⟩ ⟨9, 50⟩).data,
         "UID:".data ++ ("u1" : String).data,
         ("RRULE:FREQ=WEEKLY;INTERVAL=1;BYDAY=" ++ joinSep (",") ["MO", "WE", "FR"] ++
           ";UNTIL=" ++ ics_datetime ⟨2024, 12, 13⟩ ⟨23, 59⟩ ++ "Z").data]
        ++ (if ([⟨2024, 10, 21⟩] : List Date) = [] then [[]]
            else [(⟨2024, 10, 21⟩ : Date)].map (fun exdate =>
              ("EXDATE;TZID=America/Detroit:" ++ ics_datetime exdate ⟨9, 0⟩).data))
        ++ ["END:VEVENT".data, []] :=
  (recurring_event_serialization ⟨2024, 9, 2⟩ ⟨2024, 12, 13⟩ "CS 108" "NH 253"
    "u1" "20240901T000000Z" ⟨9, 0⟩ ⟨9, 50⟩ ['M', 'W', 'F'] ["MO", "WE", "FR"]
    [⟨2024, 10, 21⟩] c9out rfl (by decide) (by decide) (by decide) (by decide)
    rfl).1

end Calgen

